import Mathlib

/-!
Verification of the feed-aggregation backend (`src/api/views.py`).

Python strings are embedded as `List Char`; raw byte strings (the UTF-8
bytes of a URL) as `List Nat` with every element `< 256`.  All definitions
are translated from the source file; each doc comment points to the
function it embeds.
-/

/-! ### Item identifiers: URL-safe base64 (`_encode_id` / `_decode_id`) -/

/-- Character `n` of the URL-safe base64 alphabet (`A-Z a-z 0-9 - _`),
as used by `base64.urlsafe_b64encode`. -/
def b64Char (n : Nat) : Char :=
  if n < 26 then Char.ofNat (65 + n)
  else if n < 52 then Char.ofNat (97 + (n - 26))
  else if n < 62 then Char.ofNat (48 + (n - 52))
  else if n = 62 then '-'
  else '_'

/-- Membership in the URL-safe base64 alphabet. -/
def isB64Char (c : Char) : Bool :=
  ('A' ≤ c && c ≤ 'Z') || ('a' ≤ c && c ≤ 'z') || ('0' ≤ c && c ≤ '9') ||
    c == '-' || c == '_'

/-- Numeric value of a URL-safe base64 alphabet character. -/
def b64Value (c : Char) : Nat :=
  if 'A' ≤ c && c ≤ 'Z' then c.toNat - 65
  else if 'a' ≤ c && c ≤ 'z' then c.toNat - 97 + 26
  else if '0' ≤ c && c ≤ '9' then c.toNat - 48 + 52
  else if c == '-' then 62
  else 63

/-- `base64.urlsafe_b64encode` on a byte string: 3-byte groups become 4
characters, a trailing group of 1 or 2 bytes is padded with `=`. -/
def b64encode : List Nat → List Char
  | [] => []
  | [a] => [b64Char (a / 4), b64Char (a % 4 * 16), '=', '=']
  | [a, b] => [b64Char (a / 4), b64Char (a % 4 * 16 + b / 16), b64Char (b % 16 * 4), '=']
  | a :: b :: c :: rest =>
      b64Char (a / 4) :: b64Char (a % 4 * 16 + b / 16) ::
        b64Char (b % 16 * 4 + c / 64) :: b64Char (c % 64) :: b64encode rest

/-- `str.rstrip('=')`: drop the trailing `=` characters. -/
def rstripEq (l : List Char) : List Char :=
  (l.reverse.dropWhile (fun c => c == '=')).reverse

/-- `_encode_id` (src/api/views.py:16): URL-safe base64 of the link's
bytes with the `=` padding stripped. -/
def encode_id (bs : List Nat) : List Char :=
  rstripEq (b64encode bs)

/-- The padding-free base64 encoding: a trailing group of 1 byte yields 2
characters and a trailing group of 2 bytes yields 3, no `=` emitted.
Used to restate `encode_id`. -/
def b64encodeNoPad : List Nat → List Char
  | [] => []
  | [a] => [b64Char (a / 4), b64Char (a % 4 * 16)]
  | [a, b] => [b64Char (a / 4), b64Char (a % 4 * 16 + b / 16), b64Char (b % 16 * 4)]
  | a :: b :: c :: rest =>
      b64Char (a / 4) :: b64Char (a % 4 * 16 + b / 16) ::
        b64Char (b % 16 * 4 + c / 64) :: b64Char (c % 64) :: b64encodeNoPad rest

/-- `base64.urlsafe_b64decode` on a padded base64 text, processed in
4-character quanta; `XY==` yields one byte and `XYZ=` two.  Python's
decoder additionally discards bytes outside the alphabet before decoding;
this embedding rejects them instead, which agrees with the source on every
alphabet-only input and in particular on every output of `encode_id`. -/
def b64decodeChunks : List Char → Option (List Nat)
  | [] => some []
  | c1 :: c2 :: c3 :: c4 :: rest =>
      if isB64Char c1 && isB64Char c2 then
        if c3 == '=' then
          if c4 == '=' && rest.isEmpty then
            some [b64Value c1 * 4 + b64Value c2 / 16]
          else none
        else if isB64Char c3 then
          if c4 == '=' then
            if rest.isEmpty then
              some [b64Value c1 * 4 + b64Value c2 / 16,
                    b64Value c2 % 16 * 16 + b64Value c3 / 4]
            else none
          else if isB64Char c4 then
            (b64decodeChunks rest).map (fun tail =>
              (b64Value c1 * 4 + b64Value c2 / 16) ::
                (b64Value c2 % 16 * 16 + b64Value c3 / 4) ::
                (b64Value c3 % 4 * 64 + b64Value c4) :: tail)
          else none
        else none
      else none
  | _ => none

/-- `_decode_id` (src/api/views.py:20): re-add `'=' * (-len % 4)` padding,
then base64-decode.  Returns `none` where the Python code raises. -/
def decode_id (s : List Char) : Option (List Nat) :=
  b64decodeChunks (s ++ List.replicate ((4 - s.length % 4) % 4) '=')

theorem b64Char_props : ∀ n, n < 64 →
    b64Value (b64Char n) = n ∧ isB64Char (b64Char n) = true ∧ ¬ b64Char n = '=' := by
  decide

theorem b64Char_beq_eq_false {n : Nat} (h : n < 64) : (b64Char n == '=') = false := by
  have := (b64Char_props n h).2.2
  simp [this]

theorem rstripEq_append (A X : List Char) (hA : (A.reverse.dropWhile (fun c => c == '=')) = A.reverse) :
    rstripEq (A ++ X) = A ++ rstripEq X := by
  unfold rstripEq
  rw [List.reverse_append, List.dropWhile_append]
  by_cases h : (X.reverse.dropWhile (fun c => c == '=')).isEmpty
  · simp only [h, if_true]
    rw [hA, List.reverse_reverse]
    rw [List.isEmpty_iff] at h
    rw [h]
    simp
  · have h' : (X.reverse.dropWhile (fun c => c == '=')).isEmpty = false := by
      simpa using h
    simp only [h', Bool.false_eq_true, if_false]
    rw [List.reverse_append, List.reverse_reverse]

theorem encode_eq_noPad : ∀ bs : List Nat, (∀ b ∈ bs, b < 256) →
    encode_id bs = b64encodeNoPad bs
  | [], _ => rfl
  | [a], h => by
    have ha : a < 256 := h a (by simp)
    have h2 : a % 4 * 16 < 64 := by omega
    unfold encode_id b64encode b64encodeNoPad rstripEq
    simp [List.dropWhile, b64Char_beq_eq_false h2]
  | [a, b], h => by
    have ha : a < 256 := h a (by simp)
    have hb : b < 256 := h b (by simp)
    have h3 : b % 16 * 4 < 64 := by omega
    unfold encode_id b64encode b64encodeNoPad rstripEq
    simp [List.dropWhile, b64Char_beq_eq_false h3]
  | a :: b :: c :: rest, h => by
    have ha : a < 256 := h a (by simp)
    have hb : b < 256 := h b (by simp)
    have hc : c < 256 := h c (by simp)
    have h1 : a / 4 < 64 := by omega
    have h2 : a % 4 * 16 + b / 16 < 64 := by omega
    have h3 : b % 16 * 4 + c / 64 < 64 := by omega
    have h4 : c % 64 < 64 := by omega
    have hrest : ∀ x ∈ rest, x < 256 := fun x hx => h x (by simp [hx])
    have ih := encode_eq_noPad rest hrest
    have e1 : encode_id (a :: b :: c :: rest) =
        rstripEq ([b64Char (a / 4), b64Char (a % 4 * 16 + b / 16),
          b64Char (b % 16 * 4 + c / 64), b64Char (c % 64)] ++ b64encode rest) := rfl
    rw [e1, rstripEq_append _ _ (by
      simp [List.dropWhile, b64Char_beq_eq_false h1, b64Char_beq_eq_false h2,
        b64Char_beq_eq_false h3, b64Char_beq_eq_false h4])]
    have e2 : rstripEq (b64encode rest) = encode_id rest := rfl
    rw [e2, ih]
    rfl

theorem decodeChunk2 {x y : Nat} (hx : x < 64) (hy : y < 64) :
    b64decodeChunks [b64Char x, b64Char y, '=', '='] = some [x * 4 + y / 16] := by
  have v1 := (b64Char_props x hx).1
  have v2 := (b64Char_props y hy).1
  have i1 := (b64Char_props x hx).2.1
  have i2 := (b64Char_props y hy).2.1
  simp [b64decodeChunks, i1, i2, v1, v2]

theorem decodeChunk3 {x y z : Nat} (hx : x < 64) (hy : y < 64) (hz : z < 64) :
    b64decodeChunks [b64Char x, b64Char y, b64Char z, '='] =
      some [x * 4 + y / 16, y % 16 * 16 + z / 4] := by
  have v1 := (b64Char_props x hx).1
  have v2 := (b64Char_props y hy).1
  have v3 := (b64Char_props z hz).1
  have i1 := (b64Char_props x hx).2.1
  have i2 := (b64Char_props y hy).2.1
  have i3 := (b64Char_props z hz).2.1
  simp [b64decodeChunks, i1, i2, i3, v1, v2, v3, b64Char_beq_eq_false hz]

theorem decodeChunk4 {x y z w : Nat} (hx : x < 64) (hy : y < 64) (hz : z < 64)
    (hw : w < 64) (rest : List Char) :
    b64decodeChunks (b64Char x :: b64Char y :: b64Char z :: b64Char w :: rest) =
      (b64decodeChunks rest).map (fun tail =>
        (x * 4 + y / 16) :: (y % 16 * 16 + z / 4) :: (z % 4 * 64 + w) :: tail) := by
  have v1 := (b64Char_props x hx).1
  have v2 := (b64Char_props y hy).1
  have v3 := (b64Char_props z hz).1
  have v4 := (b64Char_props w hw).1
  have i1 := (b64Char_props x hx).2.1
  have i2 := (b64Char_props y hy).2.1
  have i3 := (b64Char_props z hz).2.1
  have i4 := (b64Char_props w hw).2.1
  simp [b64decodeChunks, i1, i2, i3, i4, v1, v2, v3, v4,
    b64Char_beq_eq_false hz, b64Char_beq_eq_false hw]

theorem decode_noPad : ∀ bs : List Nat, (∀ b ∈ bs, b < 256) →
    decode_id (b64encodeNoPad bs) = some bs
  | [], _ => rfl
  | [a], h => by
    have ha : a < 256 := h a (by simp)
    have h1 : a / 4 < 64 := by omega
    have h2 : a % 4 * 16 < 64 := by omega
    have e1 : decode_id (b64encodeNoPad [a]) =
        b64decodeChunks [b64Char (a / 4), b64Char (a % 4 * 16), '=', '='] := rfl
    rw [e1, decodeChunk2 h1 h2]
    simp only [Option.some.injEq, List.cons.injEq, and_true]
    omega
  | [a, b], h => by
    have ha : a < 256 := h a (by simp)
    have hb : b < 256 := h b (by simp)
    have h1 : a / 4 < 64 := by omega
    have h2 : a % 4 * 16 + b / 16 < 64 := by omega
    have h3 : b % 16 * 4 < 64 := by omega
    have e1 : decode_id (b64encodeNoPad [a, b]) =
        b64decodeChunks [b64Char (a / 4), b64Char (a % 4 * 16 + b / 16),
          b64Char (b % 16 * 4), '='] := rfl
    rw [e1, decodeChunk3 h1 h2 h3]
    simp only [Option.some.injEq, List.cons.injEq, and_true]
    refine ⟨by omega, by omega⟩
  | a :: b :: c :: rest, h => by
    have ha : a < 256 := h a (by simp)
    have hb : b < 256 := h b (by simp)
    have hc : c < 256 := h c (by simp)
    have h1 : a / 4 < 64 := by omega
    have h2 : a % 4 * 16 + b / 16 < 64 := by omega
    have h3 : b % 16 * 4 + c / 64 < 64 := by omega
    have h4 : c % 64 < 64 := by omega
    have hrest : ∀ x ∈ rest, x < 256 := fun x hx => h x (by simp [hx])
    have ih := decode_noPad rest hrest
    have hpad : (4 - (b64encodeNoPad (a :: b :: c :: rest)).length % 4) % 4 =
        (4 - (b64encodeNoPad rest).length % 4) % 4 := by
      have : (b64encodeNoPad (a :: b :: c :: rest)).length =
          4 + (b64encodeNoPad rest).length := by
        simp [b64encodeNoPad]
        omega
      rw [this]
      omega
    have e1 : decode_id (b64encodeNoPad (a :: b :: c :: rest)) =
        b64decodeChunks (b64Char (a / 4) :: b64Char (a % 4 * 16 + b / 16) ::
          b64Char (b % 16 * 4 + c / 64) :: b64Char (c % 64) ::
          (b64encodeNoPad rest ++
            List.replicate ((4 - (b64encodeNoPad rest).length % 4) % 4) '=')) := by
      unfold decode_id
      rw [hpad]
      rfl
    rw [e1, decodeChunk4 h1 h2 h3 h4]
    have e2 : b64decodeChunks (b64encodeNoPad rest ++
        List.replicate ((4 - (b64encodeNoPad rest).length % 4) % 4) '=') =
        decode_id (b64encodeNoPad rest) := rfl
    rw [e2, ih]
    simp only [Option.map_some', Option.some.injEq, List.cons.injEq, and_true]
    refine ⟨by omega, by omega, by omega⟩

/-- Round trip at the byte level, with no non-emptiness requirement. -/
theorem decode_encode_id (bs : List Nat) (h : ∀ b ∈ bs, b < 256) :
    decode_id (encode_id bs) = some bs := by
  rw [encode_eq_noPad bs h]
  exact decode_noPad bs h

/-- `encode_id` is injective on byte strings. -/
theorem encode_id_inj {bs1 bs2 : List Nat} (h1 : ∀ b ∈ bs1, b < 256)
    (h2 : ∀ b ∈ bs2, b < 256) (he : encode_id bs1 = encode_id bs2) : bs1 = bs2 := by
  have r1 := decode_encode_id bs1 h1
  have r2 := decode_encode_id bs2 h2
  rw [he, r2] at r1
  exact ((Option.some.injEq _ _).mp r1).symm

/-- C1: For every non-empty URL string `u` (represented by its UTF-8
bytes), decoding the item identifier produced by encoding `u` (URL-safe
base64 with `=` padding stripped; decoding re-adds the padding) yields `u`
exactly: `decode_id (encode_id u) = some u`. -/
theorem C1_id_round_trip (bs : List Nat) (hbytes : ∀ b ∈ bs, b < 256)
    (_hne : bs ≠ []) : decode_id (encode_id bs) = some bs :=
  decode_encode_id bs hbytes

/-- C1 witness: the round trip evaluated on the bytes of `"http://a"`. -/
theorem C1_id_round_trip_witness :
    decode_id (encode_id [104, 116, 116, 112, 58, 47, 47, 97]) =
      some [104, 116, 116, 112, 58, 47, 47, 97] :=
  C1_id_round_trip [104, 116, 116, 112, 58, 47, 47, 97] (by decide) (by decide)

/-! ### Excerpt normalization (`_parse_feeds`, src/api/views.py:350)

The excerpt is `summary and re.sub('<[^<]+?>', '', summary)[:240]`.
The regex `<[^<]+?>` matches a `<`, then one or more characters none of
which is `<` (lazily, so the nearest `>` ends the match), then `>`. -/

/-- Scan for the `>` closing a tag: fails on a `<` before any `>` is
seen (the `[^<]+` class excludes `<`), otherwise returns the remainder
after the first `>`. -/
def findGt : List Char → Option (List Char)
  | [] => none
  | c :: rest => if c == '<' then none else if c == '>' then some rest else findGt rest

/-- After an opening `<`: the pattern needs at least one non-`<`
character and then scans to the nearest `>`. -/
def tagEnd : List Char → Option (List Char)
  | [] => none
  | c :: rest => if c == '<' then none else findGt rest

/-- `re.sub('<[^<]+?>', '', s)`: left-to-right scan replacing each
non-overlapping leftmost match by the empty string.  Structural fuel
(initialized to the string length, which the scan never exhausts since
every step consumes at least one character) keeps the definition
kernel-reducible. -/
def stripTagsGo : Nat → List Char → List Char
  | _, [] => []
  | 0, l => l
  | fuel + 1, c :: rest =>
    if c == '<' then
      match tagEnd rest with
      | some rest2 => stripTagsGo fuel rest2
      | none => c :: stripTagsGo fuel rest
    else c :: stripTagsGo fuel rest

def stripTags (s : List Char) : List Char := stripTagsGo s.length s

/-- The `excerpt` field built by `_parse_feeds`
(src/api/views.py:350): `summary and re.sub('<[^<]+?>', '', summary)[:240]`;
a falsy (empty) summary is returned unchanged. -/
def excerpt (summary : List Char) : List Char :=
  if summary.isEmpty then summary else (stripTags summary).take 240

/-- C2 counterexample: the summary `"5 < 6"` contains no substring the
tag regex matches, so its excerpt still contains `<`, refuting the claim
that the excerpt never contains `<` or `>`. -/
theorem C2_excerpt_counterexample :
    '<' ∈ excerpt (("5 < 6").data) ∧ excerpt (("5 < 6").data) = ("5 < 6").data := by
  constructor
  · decide
  · decide

/-- C2 (amended): for every HTML summary string the excerpt produced by
the normalizer (strip the tag pattern, then truncate) has length at most
240, and an empty summary yields an empty excerpt; stray `<`/`>`
characters that are not part of a `<[^<]+?>` match survive into the
excerpt, so the no-`<`/`>` guarantee of the original claim does not hold. -/
theorem C2_excerpt_bounds (s : List Char) :
    (excerpt s).length ≤ 240 ∧ (s = [] → excerpt s = []) := by
  constructor
  · unfold excerpt
    by_cases h : s.isEmpty
    · simp only [h, if_true]
      rw [List.isEmpty_iff] at h
      simp [h]
    · simp only [h, Bool.false_eq_true, if_false]
      rw [List.length_take]
      exact min_le_left _ _
  · intro h
    subst h
    rfl

/-- C2 witness: the amended claim evaluated at a concrete tagged summary
and at the empty summary. -/
theorem C2_excerpt_bounds_witness :
    (excerpt (("<p>hi</p>").data)).length ≤ 240 ∧ excerpt [] = [] :=
  ⟨(C2_excerpt_bounds (("<p>hi</p>").data)).1, (C2_excerpt_bounds []).2 rfl⟩

/-! ### Feed aggregation tail (`_parse_feeds`, src/api/views.py:364-376)

Deduplicate by identifier keeping first occurrences, sort by
`publishedAt` descending, mark the first `min(5, N)` items trending,
truncate to the limit. -/

/-- One element of the `items` list built by `_parse_feeds`
(src/api/views.py:347-360), restricted to the fields the aggregation tail
(lines 364-376) inspects.  `id` is `_encode_id(link)`; `publishedAt`
abstracts the formatted publish timestamp (the source sorts the ISO-8601
UTC strings, whose lexicographic order is chronological for the fixed
format); `trending` is `False` at construction.  The purely
presentational fields (title, excerpt, image, source, author, category,
readTime) play no part in lines 364-376 and are omitted. -/
structure FeedItem where
  id : List Char
  link : List Nat
  publishedAt : Nat
  trending : Bool
deriving DecidableEq

/-- The dedup loop of `_parse_feeds` (src/api/views.py:364-371): skip an
item whose `id` is in `seen`, otherwise keep it and add its `id`. -/
def dedupGo (seen : List (List Char)) : List FeedItem → List FeedItem
  | [] => []
  | it :: rest =>
    if it.id ∈ seen then dedupGo seen rest
    else it :: dedupGo (it.id :: seen) rest

def dedupById (items : List FeedItem) : List FeedItem := dedupGo [] items

/-- Stable descending insertion: `x` goes before the first element whose
key is at most `x`'s key. -/
def insertDesc (x : FeedItem) : List FeedItem → List FeedItem
  | [] => [x]
  | y :: ys => if y.publishedAt ≤ x.publishedAt then x :: y :: ys else y :: insertDesc x ys

/-- `deduped.sort(key=lambda x: x['publishedAt'], reverse=True)`
(src/api/views.py:372).  Python's sort is stable, and a stable sort's
output is uniquely determined by the key order, so this stable insertion
sort computes the same list. -/
def sortByPublishedDesc (l : List FeedItem) : List FeedItem := l.foldr insertDesc []

/-- `for it in deduped[:min(5, len(deduped))]: it['trending'] = True`
(src/api/views.py:374-375): set `trending` on the first `n` items. -/
def markTrending : Nat → List FeedItem → List FeedItem
  | _, [] => []
  | 0, l => l
  | n + 1, it :: rest => { it with trending := true } :: markTrending n rest

/-- The aggregation tail of `_parse_feeds` (src/api/views.py:364-376):
dedup, sort descending, mark trending, truncate to `limit`. -/
def aggregateTail (items : List FeedItem) (limit : Nat) : List FeedItem :=
  (markTrending 5 (sortByPublishedDesc (dedupById items))).take limit

theorem dedupGo_sublist (seen : List (List Char)) :
    ∀ l : List FeedItem, List.Sublist (dedupGo seen l) l := by
  intro l
  induction l generalizing seen with
  | nil => simp [dedupGo]
  | cons it rest ih =>
    by_cases hmem : it.id ∈ seen
    · simp only [dedupGo, hmem, if_true]
      exact (ih seen).cons it
    · simp only [dedupGo, hmem, if_false]
      exact (ih (it.id :: seen)).cons₂ it

theorem dedupGo_ids (seen : List (List Char)) :
    ∀ l : List FeedItem,
      ((dedupGo seen l).map (fun it => it.id)).Nodup ∧
        ∀ x ∈ dedupGo seen l, x.id ∉ seen := by
  intro l
  induction l generalizing seen with
  | nil => simp [dedupGo]
  | cons it rest ih =>
    by_cases hmem : it.id ∈ seen
    · simpa only [dedupGo, hmem, if_true] using ih seen
    · simp only [dedupGo, hmem, if_false]
      obtain ⟨hnd, hall⟩ := ih (it.id :: seen)
      refine ⟨?_, ?_⟩
      · rw [List.map_cons, List.nodup_cons]
        refine ⟨?_, hnd⟩
        intro hidmem
        obtain ⟨x, hx, hxid⟩ := List.mem_map.mp hidmem
        exact (hall x hx) (by rw [hxid]; exact List.mem_cons_self _ _)
      · intro x hx
        rcases List.mem_cons.mp hx with h | h
        · rw [h]; exact hmem
        · exact fun hs => (hall x h) (List.mem_cons_of_mem _ hs)

theorem dedupGo_find? (D : List Char) :
    ∀ (l : List FeedItem) (seen : List (List Char)), D ∉ seen →
      (dedupGo seen l).find? (fun it => decide (it.id = D)) =
        l.find? (fun it => decide (it.id = D)) := by
  intro l
  induction l with
  | nil => intro seen _; rfl
  | cons it rest ih =>
    intro seen hD
    by_cases hmem : it.id ∈ seen
    · have hne : it.id ≠ D := fun h => hD (h ▸ hmem)
      simp only [dedupGo, hmem, if_true]
      rw [ih seen hD, List.find?_cons]
      simp [hne]
    · simp only [dedupGo, hmem, if_false]
      by_cases hit : it.id = D
      · rw [List.find?_cons, List.find?_cons]
        simp [hit]
      · rw [List.find?_cons, List.find?_cons]
        simp only [hit, decide_False]
        exact ih (it.id :: seen) (by
          intro hc
          rcases List.mem_cons.mp hc with h | h
          · exact hit h.symm
          · exact hD h)

theorem countP_le_one_of_nodup_ids (D : List Char) :
    ∀ l : List FeedItem, ((l.map (fun it => it.id)).Nodup) →
      l.countP (fun it => decide (it.id = D)) ≤ 1 := by
  intro l
  induction l with
  | nil => simp
  | cons it rest ih =>
    intro hnd
    rw [List.map_cons, List.nodup_cons] at hnd
    obtain ⟨hnotin, hnd'⟩ := hnd
    by_cases hit : it.id = D
    · have hzero : rest.countP (fun it => decide (it.id = D)) = 0 := by
        rw [List.countP_eq_zero]
        intro x hx
        simp only [decide_eq_true_eq]
        intro hxD
        exact hnotin (List.mem_map.mpr ⟨x, hx, by rw [hxD, hit]⟩)
      simp [List.countP_cons, hit, hzero]
    · rw [List.countP_cons]
      simp only [hit, decide_False]
      simpa using ih hnd'

theorem find?_congr_pred {l : List FeedItem} {p q : FeedItem → Bool}
    (h : ∀ x ∈ l, p x = q x) : l.find? p = l.find? q := by
  induction l with
  | nil => rfl
  | cons it rest ih =>
    rw [List.find?_cons, List.find?_cons, h it (List.mem_cons_self _ _)]
    cases hq : q it with
    | true => rfl
    | false => exact ih fun x hx => h x (List.mem_cons_of_mem _ hx)

theorem insertDesc_perm (x : FeedItem) (l : List FeedItem) :
    List.Perm (insertDesc x l) (x :: l) := by
  induction l with
  | nil => exact List.Perm.refl _
  | cons y ys ih =>
    by_cases h : y.publishedAt ≤ x.publishedAt
    · simp only [insertDesc, h, if_true]
      exact List.Perm.refl _
    · simp only [insertDesc, h, if_false]
      exact (List.Perm.cons y ih).trans (List.Perm.swap x y ys)

theorem sortDesc_perm (l : List FeedItem) :
    List.Perm (sortByPublishedDesc l) l := by
  induction l with
  | nil => exact List.Perm.refl _
  | cons x xs ih => exact (insertDesc_perm x _).trans (List.Perm.cons x ih)

theorem pairwise_insertDesc (x : FeedItem) (l : List FeedItem)
    (h : List.Pairwise (fun a b => b.publishedAt ≤ a.publishedAt) l) :
    List.Pairwise (fun a b => b.publishedAt ≤ a.publishedAt) (insertDesc x l) := by
  induction l with
  | nil => simp [insertDesc]
  | cons y ys ih =>
    rw [List.pairwise_cons] at h
    obtain ⟨hy, hys⟩ := h
    by_cases hle : y.publishedAt ≤ x.publishedAt
    · simp only [insertDesc, hle, if_true]
      rw [List.pairwise_cons]
      refine ⟨?_, ?_⟩
      · intro z hz
        rcases List.mem_cons.mp hz with hzy | hzys
        · rw [hzy]; exact hle
        · exact le_trans (hy z hzys) hle
      · rw [List.pairwise_cons]
        exact ⟨hy, hys⟩
    · simp only [insertDesc, hle, if_false]
      rw [List.pairwise_cons]
      refine ⟨?_, ih hys⟩
      intro z hz
      have hz' : z ∈ x :: ys := (insertDesc_perm x ys).mem_iff.mp hz
      rcases List.mem_cons.mp hz' with hzx | hzys
      · rw [hzx]; omega
      · exact hy z hzys

theorem sorted_sortDesc (l : List FeedItem) :
    List.Pairwise (fun a b => b.publishedAt ≤ a.publishedAt) (sortByPublishedDesc l) := by
  induction l with
  | nil => simp [sortByPublishedDesc]
  | cons x xs ih => exact pairwise_insertDesc x _ ih

theorem markTrending_getD_lt :
    ∀ (n : Nat) (l : List FeedItem) (i : Nat) (d : FeedItem), i < n → i < l.length →
      (markTrending n l).getD i d = { l.getD i d with trending := true }
  | _, [], _, _, _, h => by simp at h
  | 0, _ :: _, i, _, h, _ => by omega
  | n + 1, it :: rest, 0, d, _, _ => by simp [markTrending]
  | n + 1, it :: rest, i + 1, d, h5, hlen => by
    simp only [markTrending, List.getD_cons_succ]
    exact markTrending_getD_lt n rest i d (by omega) (by simpa using hlen)

theorem markTrending_getD_ge :
    ∀ (n : Nat) (l : List FeedItem) (i : Nat) (d : FeedItem), n ≤ i →
      (markTrending n l).getD i d = l.getD i d
  | n, [], _, _, _ => by cases n <;> rfl
  | 0, _ :: _, _, _, _ => rfl
  | n + 1, it :: rest, i, d, h => by
    have hi : ∃ j, i = j + 1 := ⟨i - 1, by omega⟩
    obtain ⟨j, rfl⟩ := hi
    simp only [markTrending, List.getD_cons_succ]
    exact markTrending_getD_ge n rest j d (by omega)

theorem markTrending_mem :
    ∀ (n : Nat) (l : List FeedItem) (y : FeedItem), y ∈ markTrending n l →
      ∃ z ∈ l, y = z ∨ y = { z with trending := true }
  | _, [], _, h => by simp [markTrending] at h
  | 0, it :: rest, y, h => ⟨y, h, Or.inl rfl⟩
  | n + 1, it :: rest, y, h => by
    rcases List.mem_cons.mp h with hy | hy
    · exact ⟨it, List.mem_cons_self _ _, Or.inr hy⟩
    · obtain ⟨z, hz, hcase⟩ := markTrending_mem n rest y hy
      exact ⟨z, List.mem_cons_of_mem _ hz, hcase⟩

theorem pairwise_markTrending (n : Nat) (l : List FeedItem)
    (h : List.Pairwise (fun a b => b.publishedAt ≤ a.publishedAt) l) :
    List.Pairwise (fun a b => b.publishedAt ≤ a.publishedAt) (markTrending n l) := by
  induction l generalizing n with
  | nil => simp [markTrending]
  | cons it rest ih =>
    cases n with
    | zero => simpa [markTrending] using h
    | succ m =>
      rw [List.pairwise_cons] at h
      obtain ⟨hy, hys⟩ := h
      simp only [markTrending]
      rw [List.pairwise_cons]
      refine ⟨?_, ih m hys⟩
      intro y hymem
      obtain ⟨z, hz, hcase⟩ := markTrending_mem m rest y hymem
      have hpa : y.publishedAt = z.publishedAt := by
        rcases hcase with h1 | h1 <;> rw [h1]
      show y.publishedAt ≤ it.publishedAt
      rw [hpa]
      exact hy z hz

theorem getD_mem_of_lt {l : List FeedItem} {i : Nat} (d : FeedItem)
    (h : i < l.length) : l.getD i d ∈ l := by
  rw [List.getD_eq_getElem?_getD, List.getElem?_eq_getElem h]
  exact List.getElem_mem h

theorem sorted_trending_false (items : List FeedItem)
    (h : ∀ it ∈ items, it.trending = false) :
    ∀ it ∈ sortByPublishedDesc (dedupById items), it.trending = false := by
  intro it hit
  have h1 : it ∈ dedupById items := (sortDesc_perm _).mem_iff.mp hit
  exact h it ((dedupGo_sublist [] items).subset h1)

/-- C3: on the aggregation tail of `_parse_feeds`, the deduplicated list
(after the in-place trending marking) is sorted by publish time
descending; for every index `i` below its length the item at `i` has
`trending = true` exactly when `i < min 5 N` (`N` the number of
deduplicated items), provided all constructed items carry
`trending = False` as the source builds them; and the returned list is
that list truncated to the requested limit. -/
theorem C3_aggregation (items : List FeedItem) (limit : Nat)
    (hfalse : ∀ it ∈ items, it.trending = false) :
    List.Pairwise (fun a b => b.publishedAt ≤ a.publishedAt)
        (markTrending 5 (sortByPublishedDesc (dedupById items)))
    ∧ (∀ i d, i < (dedupById items).length →
        ((markTrending 5 (sortByPublishedDesc (dedupById items))).getD i d).trending
          = decide (i < min 5 (dedupById items).length))
    ∧ aggregateTail items limit
        = (markTrending 5 (sortByPublishedDesc (dedupById items))).take limit := by
  refine ⟨pairwise_markTrending 5 _ (sorted_sortDesc _), ?_, rfl⟩
  intro i d hi
  have hlen : (sortByPublishedDesc (dedupById items)).length = (dedupById items).length :=
    (sortDesc_perm _).length_eq
  by_cases h5 : i < 5
  · rw [markTrending_getD_lt 5 _ i d h5 (by rw [hlen]; exact hi)]
    have : i < min 5 (dedupById items).length := by omega
    simp [this]
  · rw [markTrending_getD_ge 5 _ i d (by omega)]
    have hmem : (sortByPublishedDesc (dedupById items)).getD i d ∈
        sortByPublishedDesc (dedupById items) :=
      getD_mem_of_lt d (by rw [hlen]; exact hi)
    rw [sorted_trending_false items hfalse _ hmem]
    have : ¬ i < min 5 (dedupById items).length := by omega
    simp [this]

def dummyItem : FeedItem := { id := [], link := [], publishedAt := 0, trending := false }

def ex3Items : List FeedItem :=
  [ { id := encode_id [104], link := [104], publishedAt := 5, trending := false },
    { id := encode_id [105], link := [105], publishedAt := 9, trending := false } ]

/-- C3 witness: the trending flag of the first aggregated item of a
concrete two-item list, obtained from the aggregation theorem. -/
theorem C3_aggregation_witness :
    ((markTrending 5 (sortByPublishedDesc (dedupById ex3Items))).getD 0 dummyItem).trending
      = decide (0 < min 5 (dedupById ex3Items).length) :=
  (C3_aggregation ex3Items 12 (by decide)).2.1 0 dummyItem (by decide)

/-- C8: if two entries of the item list share the same link (hence the
same derived id, since every item's id is `encode_id` of its link),
the deduplication step keeps the list order (it yields a sublist of its
input, so first-seen order among distinct links is preserved), retains
exactly one item with that link, and that item is the first-seen
occurrence (`find?` over the deduplicated list agrees with `find?` over
the input). -/
theorem C8_dedup (items : List FeedItem) (i j : Nat) (d : FeedItem)
    (_hij : i ≠ j) (hi : i < items.length) (_hj : j < items.length)
    (hid : ∀ it ∈ items, it.id = encode_id it.link)
    (hbytes : ∀ it ∈ items, ∀ b ∈ it.link, b < 256)
    (_hlink : (items.getD i d).link = (items.getD j d).link) :
    List.Sublist (dedupById items) items
    ∧ (dedupById items).countP (fun it => decide (it.link = (items.getD i d).link)) = 1
    ∧ (dedupById items).find? (fun it => decide (it.link = (items.getD i d).link))
        = items.find? (fun it => decide (it.link = (items.getD i d).link)) := by
  have hmemi : items.getD i d ∈ items := getD_mem_of_lt d hi
  have hLbytes : ∀ b ∈ (items.getD i d).link, b < 256 := hbytes _ hmemi
  have hsub : List.Sublist (dedupById items) items := dedupGo_sublist [] items
  -- on members of `items`, matching the link is the same as matching the id
  have hpred : ∀ x ∈ items,
      decide (x.link = (items.getD i d).link) =
        decide (x.id = encode_id (items.getD i d).link) := by
    intro x hx
    by_cases hxl : x.link = (items.getD i d).link
    · have hxid : x.id = encode_id (items.getD i d).link := by
        rw [hid x hx, hxl]
      rw [decide_eq_true hxl, decide_eq_true hxid]
    · have hxid : ¬ x.id = encode_id (items.getD i d).link := by
        intro hxid
        rw [hid x hx] at hxid
        exact hxl (encode_id_inj (hbytes x hx) hLbytes hxid)
      rw [decide_eq_false hxl, decide_eq_false hxid]
  have hpredDedup : ∀ x ∈ dedupById items,
      decide (x.link = (items.getD i d).link) =
        decide (x.id = encode_id (items.getD i d).link) :=
    fun x hx => hpred x (hsub.subset hx)
  have hfind : (dedupById items).find?
        (fun it => decide (it.id = encode_id (items.getD i d).link))
      = items.find? (fun it => decide (it.id = encode_id (items.getD i d).link)) :=
    dedupGo_find? (encode_id (items.getD i d).link) items [] (List.not_mem_nil _)
  refine ⟨hsub, ?_, ?_⟩
  · rw [List.countP_congr (fun x hx => by
      show decide (x.link = (items.getD i d).link) = true ↔
        decide (x.id = encode_id (items.getD i d).link) = true
      rw [hpredDedup x hx])]
    have hle := countP_le_one_of_nodup_ids (encode_id (items.getD i d).link)
      (dedupById items) (dedupGo_ids [] items).1
    have hexists : ∃ x, x ∈ items ∧
        (fun it => decide (it.id = encode_id (items.getD i d).link)) x = true := by
      refine ⟨items.getD i d, hmemi, ?_⟩
      show decide ((items.getD i d).id = encode_id (items.getD i d).link) = true
      rw [decide_eq_true (hid _ hmemi)]
    have hsome : (items.find?
        (fun it => decide (it.id = encode_id (items.getD i d).link))).isSome :=
      List.find?_isSome.mpr hexists
    have hpos : 0 < (dedupById items).countP
        (fun it => decide (it.id = encode_id (items.getD i d).link)) := by
      rw [List.countP_pos_iff]
      obtain ⟨x, hxeq⟩ := Option.isSome_iff_exists.mp hsome
      have hx' : (dedupById items).find?
          (fun it => decide (it.id = encode_id (items.getD i d).link)) = some x := by
        rw [hfind, hxeq]
      have hpa := @List.find?_some FeedItem
        (fun it => decide (it.id = encode_id (items.getD i d).link)) x
        (dedupById items) hx'
      exact ⟨x, List.mem_of_find?_eq_some hx', hpa⟩
    omega
  · rw [find?_congr_pred hpredDedup, find?_congr_pred hpred]
    exact hfind

def ex8Items : List FeedItem :=
  [ { id := encode_id [104], link := [104], publishedAt := 5, trending := false },
    { id := encode_id [105], link := [105], publishedAt := 9, trending := false },
    { id := encode_id [104], link := [104], publishedAt := 7, trending := false } ]

/-- C8 witness: a concrete three-item list whose first and third entries
share a link; deduplication keeps exactly one item with that link. -/
theorem C8_dedup_witness :
    (dedupById ex8Items).countP
      (fun it => decide (it.link = (ex8Items.getD 0 dummyItem).link)) = 1 :=
  (C8_dedup ex8Items 0 2 dummyItem (by decide) (by decide) (by decide)
    (by decide) (by decide) rfl).2.1

/-! ### Published-time resolution (`_parse_feeds`, src/api/views.py:313-331) -/

/-- `published = e.get('published') or e.get('updated')`: Python `or`
falls through when the first operand is absent or empty (falsy). -/
def pyOrStr (a b : Option (List Char)) : Option (List Char) :=
  match a with
  | some s => if s.isEmpty then b else some s
  | none => b

/-- The date-resolution block of `_parse_feeds` (src/api/views.py:315-331).
`tupleBuild` models `datetime(*e.published_parsed[:6])` (`none` where the
constructor raises), `strParse` models
`email.utils.parsedate_to_datetime` (`none` where it raises), and `now`
models `django_timezone.now()`; timestamps are abstracted as `Nat`.
`published_parsed = some t` models a present attribute, with an empty `t`
standing for a falsy value, which takes the `elif` branch exactly as the
truthiness test in the source.  The outer `except Exception` catches a
failure of the tuple constructor and assigns `now` — it does not re-enter
the `elif` chain — while the inner bare `except` around the string parse
also assigns `now`. -/
def resolvePublished (tupleBuild : List Nat → Option Nat)
    (strParse : List Char → Option Nat) (published_parsed : Option (List Nat))
    (published updated : Option (List Char)) (now : Nat) : Nat :=
  let pub := pyOrStr published updated
  match published_parsed with
  | some t =>
    if t.isEmpty then
      match pub with
      | some s => if s.isEmpty then now else (strParse s).getD now
      | none => now
    else
      match tupleBuild (t.take 6) with
      | some dt => dt
      | none => now
  | none =>
    match pub with
    | some s => if s.isEmpty then now else (strParse s).getD now
    | none => now

/-- The resolution order as the spec words it (§4.1): (a) structured
parsed tuple if present; on *any* parse exception fall through to the
next option, so a failing tuple build falls to (b) the RFC 2822 string
parse; (c) current time.  Stated only for comparison with the source's
`resolvePublished`. -/
def resolvePublishedSpec (tupleBuild : List Nat → Option Nat)
    (strParse : List Char → Option Nat) (published_parsed : Option (List Nat))
    (published updated : Option (List Char)) (now : Nat) : Nat :=
  let pub := pyOrStr published updated
  let fallbackStr :=
    match pub with
    | some s => if s.isEmpty then now else (strParse s).getD now
    | none => now
  match published_parsed with
  | some t =>
    if t.isEmpty then fallbackStr
    else
      match tupleBuild (t.take 6) with
      | some dt => dt
      | none => fallbackStr
  | none => fallbackStr

/-- C4 counterexample: with a parsed tuple present whose timestamp build
raises and a raw published string that parses to `7`, the code assigns
the current time `99`, not the string-parse result `7` the claim
requires: the exception does not fall through to the RFC 2822 parse. -/
theorem C4_published_counterexample :
    resolvePublished (fun _ => none) (fun _ => some 7) (some [1])
        (some ['x']) none 99 = 99
    ∧ resolvePublishedSpec (fun _ => none) (fun _ => some 7) (some [1])
        (some ['x']) none 99 = 7
    ∧ (99 : Nat) ≠ 7 :=
  ⟨rfl, rfl, by decide⟩

/-- C4 (amended): the published time is resolved as (a) the structured
parsed time tuple when present and truthy — but an exception while
building the timestamp from it is caught by the outer handler and yields
the *current time* directly, not the RFC 2822 string parse; (b) with no
(or a falsy) tuple, the raw published/updated string is parsed per
RFC 2822, an exception there yielding the current time; (c) with neither,
the current time. -/
theorem C4_published_resolution (tb : List Nat → Option Nat)
    (sp : List Char → Option Nat) (now dt : Nat) :
    (∀ t pub upd, ¬ t = [] → tb (t.take 6) = some dt →
        resolvePublished tb sp (some t) pub upd now = dt)
    ∧ (∀ t pub upd, ¬ t = [] → tb (t.take 6) = none →
        resolvePublished tb sp (some t) pub upd now = now)
    ∧ (∀ s upd, ¬ s = [] → sp s = some dt →
        resolvePublished tb sp none (some s) upd now = dt)
    ∧ (∀ s upd, ¬ s = [] → sp s = none →
        resolvePublished tb sp none (some s) upd now = now)
    ∧ resolvePublished tb sp none none none now = now := by
  refine ⟨?_, ?_, ?_, ?_, rfl⟩
  · intro t pub upd ht htb
    have ht' : t.isEmpty = false := by
      cases t with
      | nil => exact absurd rfl ht
      | cons _ _ => rfl
    simp [resolvePublished, ht', htb]
  · intro t pub upd ht htb
    have ht' : t.isEmpty = false := by
      cases t with
      | nil => exact absurd rfl ht
      | cons _ _ => rfl
    simp [resolvePublished, ht', htb]
  · intro s upd hs hsp
    have hs' : s.isEmpty = false := by
      cases s with
      | nil => exact absurd rfl hs
      | cons _ _ => rfl
    simp [resolvePublished, pyOrStr, hs', hsp]
  · intro s upd hs hsp
    have hs' : s.isEmpty = false := by
      cases s with
      | nil => exact absurd rfl hs
      | cons _ _ => rfl
    simp [resolvePublished, pyOrStr, hs', hsp]

/-- C4 witness: a successful tuple build is used, and a failing tuple
build yields the current time even though a published string is present. -/
theorem C4_published_resolution_witness :
    resolvePublished (fun _ => some 5) (fun _ => none) (some [9]) none none 99 = 5
    ∧ resolvePublished (fun _ => none) (fun _ => none) (some [9]) (some ['x']) none 99 = 99 :=
  ⟨(C4_published_resolution (fun _ => some 5) (fun _ => none) 99 5).1 [9] none none
      (by decide) rfl,
    (C4_published_resolution (fun _ => none) (fun _ => none) 99 5).2.1 [9] (some ['x']) none
      (by decide) rfl⟩

/-! ### Music search (`music_search`, src/api/views.py:571-595) -/

/-- An upstream track record, restricted to the fields the search path's
control flow inspects (`t.get('trackId')`) plus the `featured` flag the
view mutates; the presentational fields built by `_normalize_track`
(title, artist, rating, …) play no role in the control flow. -/
structure ITrack where
  trackId : Option Nat
  featured : Bool
deriving DecidableEq

/-- `_normalize_track` (src/api/views.py:549-568) at this granularity:
the normalized dict keeps the track id and carries `featured: False`. -/
def normalizeTrack (t : ITrack) : ITrack :=
  { trackId := t.trackId, featured := false }

/-- `for t in tracks[:min(4, len(tracks))]: t['featured'] = True`
(src/api/views.py:592-593). -/
def markFeatured : Nat → List ITrack → List ITrack
  | _, [] => []
  | 0, l => l
  | n + 1, t :: rest => { t with featured := true } :: markFeatured n rest

/-- The body of `music_search` past the cache check
(src/api/views.py:581-595).  `upstream` is the outcome of
`requests.get(ITUNES_SEARCH, params)`: `Except.error ()` for a network
exception, `Except.ok (status, results)` for a response.
`r.raise_for_status()` raises for any status in 400..599; an exception
escaping the view surfaces as an HTTP 5xx, modelled by `Except.error`. -/
def musicSearchMiss (upstream : Except Unit (Nat × List ITrack))
    (limit offset : Nat) : Except Unit (List ITrack) :=
  match upstream with
  | Except.error e => Except.error e
  | Except.ok (status, results) =>
    if 400 ≤ status ∧ status < 600 then Except.error ()
    else
      Except.ok (markFeatured 4
        ((((results.filter (fun t => t.trackId.isSome)).map normalizeTrack).drop offset).take limit))

/-- `music_search` (src/api/views.py:571-595): a truthy (non-empty)
cached list is returned; otherwise the upstream search runs with no
exception handling around it. -/
def music_search (upstream : Except Unit (Nat × List ITrack))
    (cached : Option (List ITrack)) (limit offset : Nat) :
    Except Unit (List ITrack) :=
  match cached with
  | some p => if p.isEmpty then musicSearchMiss upstream limit offset else Except.ok p
  | none => musicSearchMiss upstream limit offset

/-- C5 counterexample: a 500 upstream response on a cache miss makes
`raise_for_status()` raise; the exception escapes `music_search`
(surfacing as a 5xx), instead of degrading to an empty result. -/
theorem C5_music_counterexample :
    music_search (Except.ok (500, [])) none 24 0 = Except.error () := rfl

/-- C5 (amended): on a cache miss, an upstream music-API failure — a
network error or any 4xx/5xx status — makes `music_search` raise
(`raise_for_status()` has no surrounding handler), so the failure
surfaces as an unhandled exception (an HTTP 5xx), and is *not* degraded
to an empty or partial result. -/
theorem C5_music_upstream_failure (limit offset status : Nat)
    (results : List ITrack) (cached : Option (List ITrack))
    (hmiss : cached = none ∨ cached = some [])
    (hfail : 400 ≤ status ∧ status < 600) :
    music_search (Except.ok (status, results)) cached limit offset = Except.error ()
    ∧ music_search (Except.error ()) cached limit offset = Except.error () := by
  rcases hmiss with h | h <;> subst h <;>
    constructor <;> simp [music_search, musicSearchMiss, hfail]

/-- C5 witness: the amended claim at a concrete 503 response and at a
network error, both on a fresh cache. -/
theorem C5_music_upstream_failure_witness :
    music_search (Except.ok (503, [])) none 24 0 = Except.error ()
    ∧ music_search (Except.error ()) none 24 0 = Except.error () :=
  C5_music_upstream_failure 24 0 503 [] none (Or.inl rfl) (by decide)

/-! ### News-list response cache (`news_list`, src/api/views.py:379-438) -/

/-- The response-cache state for the news list: an association list from
keys to stored result lists (`cache.set` pushes the fresh binding in
front, `cache.get` finds the most recent one), plus a counter of how many
times the recompute/refetch path ran.  Entry expiry is not modelled: a
present entry is one whose 300-second TTL has not elapsed. -/
structure NewsCacheState where
  cache : List (List Char × List Nat)
  computations : Nat
deriving DecidableEq

/-- `cache.get(key)`: `None` when absent (or expired). -/
def cacheLookup (key : List Char) : List (List Char × List Nat) → Option (List Nat)
  | [] => none
  | (k, v) :: rest => if k = key then some v else cacheLookup key rest

/-- `news_list` (src/api/views.py:379-438) viewed through its caching
skeleton (lines 384-387 and 437-438): `cached = cache.get(key)`; a
*truthy* — non-empty — cached list is returned verbatim; otherwise the
view recomputes the result list (database query, falling back to a live
feed parse when empty), abstracted as the fixed value `compute` since the
underlying data does not change between two consecutive identical
requests, stores it under the key, and returns it.  Result items are
abstracted as opaque `Nat`s; `computations` counts the recompute path. -/
def news_list_cached (compute : List Nat) (key : List Char)
    (st : NewsCacheState) : List Nat × NewsCacheState :=
  match cacheLookup key st.cache with
  | some p =>
    if p.isEmpty then
      (compute, { cache := (key, compute) :: st.cache, computations := st.computations + 1 })
    else (p, st)
  | none =>
    (compute, { cache := (key, compute) :: st.cache, computations := st.computations + 1 })

/-- C6 counterexample: when the first request's payload is the empty
list, the stored entry is falsy, so the second identical request misses
(`if cached:` fails) and recomputes: the computation counter reaches 2,
refuting "performs no second upstream fetch or recomputation". -/
theorem C6_cache_counterexample :
    ((news_list_cached [] (("news_world_12_0").data)
        ((news_list_cached [] (("news_world_12_0").data)
          { cache := [], computations := 0 }).2)).2).computations = 2 := rfl

/-- C6 (amended): for two consecutive identical requests within the TTL,
*provided the first response's result list is non-empty*, the second
request returns the payload of the first verbatim and leaves the state —
including the recomputation counter — unchanged, performing no second
fetch or recomputation.  An empty payload is falsy, is treated as a cache
miss, and is recomputed. -/
theorem C6_cache_idempotent (compute : List Nat) (key : List Char)
    (st : NewsCacheState)
    (hne : (news_list_cached compute key st).1.isEmpty = false) :
    news_list_cached compute key ((news_list_cached compute key st).2)
      = ((news_list_cached compute key st).1, (news_list_cached compute key st).2) := by
  cases hcl : cacheLookup key st.cache with
  | none =>
    have h1 : news_list_cached compute key st =
        (compute, { cache := (key, compute) :: st.cache,
                    computations := st.computations + 1 }) := by
      simp [news_list_cached, hcl]
    rw [h1] at hne ⊢
    simp only [news_list_cached, cacheLookup, if_pos rfl]
    simp at hne ⊢
    simp [hne]
  | some p =>
    by_cases hp : p.isEmpty
    · have h1 : news_list_cached compute key st =
          (compute, { cache := (key, compute) :: st.cache,
                      computations := st.computations + 1 }) := by
        simp [news_list_cached, hcl, hp]
      rw [h1] at hne ⊢
      simp only [news_list_cached, cacheLookup, if_pos rfl]
      simp at hne ⊢
      simp [hne]
    · have h1 : news_list_cached compute key st = (p, st) := by
        simp [news_list_cached, hcl, hp]
      rw [h1] at hne ⊢
      simp [news_list_cached, hcl, hne]

/-- C6 witness: a non-empty payload on a fresh cache is a hit the second
time, with identical payload and unchanged state. -/
theorem C6_cache_idempotent_witness :
    news_list_cached [1] (("news_world_12_0").data)
        ((news_list_cached [1] (("news_world_12_0").data)
          { cache := [], computations := 0 }).2)
      = ((news_list_cached [1] (("news_world_12_0").data)
            { cache := [], computations := 0 }).1,
         (news_list_cached [1] (("news_world_12_0").data)
            { cache := [], computations := 0 }).2) :=
  C6_cache_idempotent [1] (("news_world_12_0").data)
    { cache := [], computations := 0 } (by decide)

/-! ### Image picker (`_pick_image`, src/api/views.py:168-274) -/

/-- `s.lower()` restricted to ASCII letters, as `Char.toLower`. -/
def lowerS (s : List Char) : List Char := s.map Char.toLower

/-- `s.startswith(p)`. -/
def beginsWith (p s : List Char) : Bool := decide (s.take p.length = p)

/-- Case-insensitive prefix test (for patterns compiled with
`re.IGNORECASE`); `p` is given lowercased. -/
def beginsCI (p s : List Char) : Bool := decide ((s.take p.length).map Char.toLower = p)

/-- Python `p in s` substring test. -/
def containsSub (p : List Char) : List Char → Bool
  | [] => beginsWith p []
  | c :: t => beginsWith p (c :: t) || containsSub p t

/-- `s.endswith(suf)`. -/
def endsWithL (suf s : List Char) : Bool := beginsWith suf.reverse s.reverse

/-- The `\d{1,2}(?:&|$)` tail of the small-width query pattern, after
`[?&]w=` has matched: one or two digits followed by `&` or the end
(greedy with backtracking). -/
def widthDigits : List Char → Bool
  | [] => false
  | d1 :: rest =>
    d1.isDigit &&
      (match rest with
       | [] => true
       | c :: rest2 =>
         if c = '&' then true
         else if c.isDigit then
           (match rest2 with
            | [] => true
            | c2 :: _ => decide (c2 = '&'))
         else false)

/-- `re.search(r'[?&]w=\d{1,2}(?:&|$)', s)` (src/api/views.py:200): a
small width query parameter marking tracking pixels/thumbnails. -/
def smallWidthQuery : List Char → Bool
  | [] => false
  | c :: t =>
    (if c = '?' ∨ c = '&' then
      (match t with
       | 'w' :: '=' :: rest => widthDigits rest
       | _ => false)
     else false) || smallWidthQuery t

/-- The generic/logo keyword blacklist of `is_generic`
(src/api/views.py:193-196). -/
def genericKeywords : List (List Char) :=
  [("logo").data, ("sprite").data, ("icon").data, ("placeholder").data,
   ("default").data, ("branding").data, ("og-default").data, ("/i/espn/").data,
   ("espn_logo").data, ("branding.svg").data, ("favicon").data, ("badge").data]

/-- `is_generic` (src/api/views.py:190-202): lowercase, then flag any
blacklist keyword occurrence or a small-width query parameter. -/
def is_generic (u : List Char) : Bool :=
  genericKeywords.any (fun k => containsSub k (lowerS u)) || smallWidthQuery (lowerS u)

/-- `is_valid` (src/api/views.py:184-188): a candidate must be non-falsy
and its lowercasing must start with `http://`, `https://` or `//`. -/
def is_valid : Option (List Char) → Bool
  | none => false
  | some u =>
    if u.isEmpty then false
    else
      beginsWith (("http://").data) (lowerS u) || beginsWith (("https://").data) (lowerS u)
        || beginsWith (("//").data) (lowerS u)

/-- `norm` (src/api/views.py:177-182): `None`/empty stays `None`; a
protocol-relative URL gets the `https:` scheme. -/
def normU : Option (List Char) → Option (List Char)
  | none => none
  | some u =>
    if u.isEmpty then none
    else if beginsWith (("//").data) u then some (("https:").data ++ u)
    else some u

/-- The `(["\'])([^"\']+)` tail of the img-src pattern: an opening quote
then a maximal non-empty run of non-quote characters (the capture). -/
def srcCapture : List Char → Option (List Char)
  | [] => none
  | q :: rest =>
    if q = '"' ∨ q = '\'' then
      (if (rest.takeWhile (fun c => ¬ (c = '"' ∨ c = '\''))).isEmpty then none
       else some (rest.takeWhile (fun c => ¬ (c = '"' ∨ c = '\''))))
    else none

/-- Scanning for `src=["\']([^"\']+)` after `<img`: the `[^>]+` class
stops the scan at the first `>`, needs at least one character before
`src=`, and is greedy — the deepest (rightmost) successful match wins,
backtracking to earlier ones. -/
def scanSrc : Nat → List Char → Option (List Char)
  | _, [] => none
  | idx, c :: t =>
    if c = '>' then none
    else
      match scanSrc (idx + 1) t with
      | some r => some r
      | none =>
        if 1 ≤ idx then
          (if beginsCI (("src=").data) (c :: t) then srcCapture ((c :: t).drop 4)
           else none)
        else none

/-- `re.search(r'<img[^>]+src=["\']([^"\']+)', html, re.IGNORECASE)`:
the leftmost `<img` with a usable `src` wins. -/
def findImgSrc : List Char → Option (List Char)
  | [] => none
  | c :: t =>
    if beginsCI (("<img").data) (c :: t) then
      match scanSrc 0 ((c :: t).drop 4) with
      | some src => some src
      | none => findImgSrc t
    else findImgSrc t

/-- `first_img` (src/api/views.py:234-241): the first inline `<img src>`
of an HTML body, with `data:` URIs rejected. -/
def first_img (html : List Char) : Option (List Char) :=
  match findImgSrc html with
  | some src => if beginsWith (("data:").data) src then none else some src
  | none => none

/-- A `media:content`/`media:thumbnail` element: a dict with an optional
`url` key. -/
structure MediaRef where
  url : Option (List Char)
deriving DecidableEq

/-- A feed `links` element: `rel`, `href` and `type` keys (the latter
named `mtype` here since `type` is reserved-adjacent in Lean). -/
structure LinkRef where
  rel : Option (List Char)
  href : Option (List Char)
  mtype : Option (List Char)
deriving DecidableEq

/-- A feed `content` element with an optional `value` key. -/
structure ContentRef where
  value : Option (List Char)
deriving DecidableEq

/-- A raw feed entry as `_pick_image` reads it: `entry.get('...') or []`
collapses absent and falsy list fields, so they are plain lists here;
`summary`/`description` are optional strings, `link` defaults to `''`. -/
structure Entry where
  media_content : List MediaRef
  media_thumbnail : List MediaRef
  links : List LinkRef
  content : List ContentRef
  summary : Option (List Char)
  description : Option (List Char)
  link : List Char
deriving DecidableEq

/-- Image extensions accepted for enclosure links
(src/api/views.py:228). -/
def imgExts : List (List Char) :=
  [(".jpg").data, (".jpeg").data, (".png").data, (".webp").data, (".gif").data]

/-- The inline-image candidate from one HTML body: collected only when
`first_img` found a (non-`data:`) source that `is_valid` accepts. -/
def imgCandidate (html : List Char) : List (List Char) :=
  match first_img html with
  | some img => if is_valid (some img) then [img] else []
  | none => []

/-- The candidate collection of `_pick_image` (src/api/views.py:204-254),
in source order: media-content URLs, media-thumbnail URLs, enclosure or
image-typed links, the first inline image of `content[0]`, of `summary`
and of `description`. -/
def candidatesOf (e : Entry) : List (List Char) :=
  (e.media_content.filterMap (fun mc => if is_valid mc.url then mc.url else none))
    ++ (e.media_thumbnail.filterMap (fun mt => if is_valid mt.url then mt.url else none))
    ++ (e.links.filterMap (fun l =>
          match l.href with
          | some h =>
            if is_valid (some h)
                && (decide (lowerS (l.rel.getD []) = ("enclosure").data)
                    || containsSub (("image").data) (lowerS (l.mtype.getD []))
                    || imgExts.any (fun ext => endsWithL ext (lowerS h))) then
              some h
            else none
          | none => none))
    ++ (match e.content with
        | [] => []
        | c :: _ => imgCandidate (c.value.getD []))
    ++ imgCandidate (e.summary.getD [])
    ++ imgCandidate (e.description.getD [])

/-- The first-non-generic loop of `_pick_image`
(src/api/views.py:256-260): normalize each candidate and return the
first whose normal form is not generic. -/
def chooseCand : List (List Char) → Option (List Char)
  | [] => none
  | u :: rest =>
    if is_generic ((normU (some u)).getD []) then chooseCand rest
    else some ((normU (some u)).getD [])

/-- `_SCRAPE_WHITELIST` (src/api/views.py:49-53). -/
def scrapeWhitelist : List (List Char) :=
  [("espn.com").data, ("www.espn.com").data, ("techcrunch.com").data,
   ("www.techcrunch.com").data, ("aljazeera.com").data, ("www.aljazeera.com").data]

/-- Remainder after the first `//`, if any. -/
def afterDoubleSlash : List Char → Option (List Char)
  | [] => none
  | '/' :: '/' :: rest => some rest
  | _ :: rest => afterDoubleSlash rest

/-- `urlparse(url).hostname` at the granularity the whitelist gate
needs: the authority after the first `//` up to `/`, `?` or `#`, with
any userinfo before `@` and any `:port` stripped, lowercased; a URL with
no `//` has no hostname (`''` here, for Python's `None or ''`). -/
def hostOf (u : List Char) : List Char :=
  match afterDoubleSlash u with
  | none => []
  | some r =>
    lowerS ((((r.takeWhile (fun c => ¬ (c = '/' ∨ c = '?' ∨ c = '#'))).reverse.takeWhile
        (fun c => ¬ c = '@')).reverse).takeWhile (fun c => ¬ c = ':'))

/-- The protocol-relative normalization applied to a scraped og-image
source (src/api/views.py:79-80). -/
def normSrc (src : List Char) : List Char :=
  if beginsWith (("//").data) src then ("https:").data ++ src else src

/-- `_scrape_og_image` (src/api/views.py:55-86).  `net` models the HTTP
fetch plus the ordered og:image / twitter:image / image_src pattern
extraction over the fetched page (and the `_OG_CACHE` memo): it yields
`none` for a non-200 response, a network error, or no usable pattern
match, and otherwise the matched `content`/`href` attribute text.  The
whitelist gate, the protocol-relative normalization and the
`startswith('http')` filter are the source's own. -/
def scrape_og_image (net : List Char → Option (List Char)) (url : List Char) :
    Option (List Char) :=
  if scrapeWhitelist.any (fun d => endsWithL d (hostOf url)) then
    match net url with
    | some src =>
      if beginsWith (("http").data) (normSrc src) then some (normSrc src) else none
    | none => none
  else none

/-- The category placeholder of `_pick_image` (src/api/views.py:272-274):
`https://picsum.photos/seed/{seed}-news/800/400` with the seed the
lower-cased, space-to-hyphen category name (`'news'` for an empty
category). -/
def placeholderFor (category : List Char) : List Char :=
  (("https://picsum.photos/seed/").data)
    ++ ((lowerS (if category.isEmpty then ("news").data else category)).map
          (fun c => if c = ' ' then '-' else c))
    ++ (("-news/800/400").data)

/-- `_pick_image` (src/api/views.py:168-274): first non-generic valid
candidate; else the OG-scrape of the entry's link; else the first valid
candidate; else the category placeholder. -/
def pick_image (net : List Char → Option (List Char)) (e : Entry)
    (category : List Char) : List Char :=
  match chooseCand (candidatesOf e) with
  | some nu => nu
  | none =>
    match scrape_og_image net e.link with
    | some og => og
    | none =>
      match candidatesOf e with
      | u :: _ =>
        match normU (some u) with
        | some n => n
        | none => u
      | [] => placeholderFor category

theorem toNat_toLower (c : Char) :
    (Char.toLower c).toNat =
      if 65 ≤ c.toNat ∧ c.toNat ≤ 90 then c.toNat + 32 else c.toNat := by
  unfold Char.toLower
  by_cases h : 65 ≤ c.toNat ∧ c.toNat ≤ 90
  · rw [if_pos h, if_pos ⟨h.1, h.2⟩]
    have hv : (c.toNat + 32).isValidChar := Or.inl (by omega)
    rw [Char.ofNat, dif_pos hv]
    rfl
  · rw [if_neg h, if_neg h]

theorem toLower_slash {c : Char} (h : Char.toLower c = '/') : c = '/' := by
  have hn : (Char.toLower c).toNat = 47 := by rw [h]; rfl
  rw [toNat_toLower] at hn
  by_cases hc : 65 ≤ c.toNat ∧ c.toNat ≤ 90
  · rw [if_pos hc] at hn
    omega
  · rw [if_neg hc] at hn
    exact Char.eq_of_val_eq (UInt32.toNat.inj hn)

theorem beginsWith_mono {p q s : List Char} (h : beginsWith p s = true)
    (hq : q = p.take q.length) : beginsWith q s = true := by
  unfold beginsWith at h ⊢
  rw [decide_eq_true_iff] at h ⊢
  have hlen : q.length ≤ p.length := by
    have := congrArg List.length hq
    rw [List.length_take] at this
    omega
  rw [show s.take q.length = (s.take p.length).take q.length by
    rw [List.take_take, Nat.min_eq_left hlen]]
  rw [h, ← hq]

theorem beginsWith_lower {p s : List Char} (hp : p.map Char.toLower = p)
    (h : beginsWith p s = true) : beginsWith p (lowerS s) = true := by
  unfold beginsWith at h ⊢
  rw [decide_eq_true_iff] at h ⊢
  unfold lowerS
  rw [← List.map_take, h, hp]

theorem lower_begins_slashslash {s : List Char}
    (h : beginsWith (("//").data) (lowerS s) = true) :
    beginsWith (("//").data) s = true := by
  have hp : (("//").data) = ['/', '/'] := rfl
  unfold beginsWith at h ⊢
  rw [hp] at h ⊢
  rw [decide_eq_true_iff] at h
  rw [decide_eq_true_iff]
  cases s with
  | nil => simp [lowerS] at h
  | cons c1 t =>
    cases t with
    | nil => simp [lowerS, List.take] at h
    | cons c2 rest =>
      have h1 : Char.toLower c1 = '/' := by
        have := congrArg (fun l => l.headD 'x') h
        simpa [lowerS] using this
      have h2 : Char.toLower c2 = '/' := by
        have := congrArg (fun l => (l.drop 1).headD 'x') h
        simpa [lowerS] using this
      have e1 := toLower_slash h1
      have e2 := toLower_slash h2
      simp [List.take, e1, e2]

theorem begins_http_ne_nil {s : List Char}
    (h : beginsWith (("http").data) s = true) : ¬ s = [] := by
  intro hs
  rw [hs] at h
  exact absurd h (by decide)

theorem valid_norm {s : List Char} (h : is_valid (some s) = true) :
    ∃ t, normU (some s) = some t ∧ ¬ t = [] ∧
      beginsWith (("http").data) (lowerS t) = true := by
  rw [show is_valid (some s) = (if s.isEmpty then false
      else (beginsWith (("http://").data) (lowerS s)
        || beginsWith (("https://").data) (lowerS s)
        || beginsWith (("//").data) (lowerS s))) from rfl] at h
  have hnorm : normU (some s) = (if s.isEmpty then none
      else if beginsWith (("//").data) s then some ((("https:").data) ++ s)
      else some s) := rfl
  by_cases hse : s.isEmpty
  · rw [if_pos hse] at h
    exact absurd h (by simp)
  · rw [if_neg hse] at h
    have hsne : ¬ s = [] := by
      intro hs
      rw [hs] at hse
      exact hse rfl
    by_cases hbb : beginsWith (("//").data) s = true
    · refine ⟨("https:").data ++ s, ?_, by simp, ?_⟩
      · rw [hnorm, if_neg hse, if_pos hbb]
      · unfold lowerS beginsWith
        rw [List.map_append]
        rw [decide_eq_true_iff]
        rw [show ((("https:").data).map Char.toLower) = ("https:").data from by decide]
        rw [List.take_append_of_le_length (by decide)]
        decide
    · have hnu : normU (some s) = some s := by
        rw [hnorm, if_neg hse, if_neg hbb]
      refine ⟨s, hnu, hsne, ?_⟩
      simp only [Bool.or_eq_true] at h
      rcases h with (h1 | h2) | h3
      · exact beginsWith_mono h1 (by decide)
      · exact beginsWith_mono h2 (by decide)
      · exact absurd (lower_begins_slashslash h3) hbb

theorem mem_imgCandidate {u : List Char} {html : List Char}
    (hu : u ∈ imgCandidate html) : is_valid (some u) = true := by
  unfold imgCandidate at hu
  split at hu
  · rename_i img _
    split at hu
    · rename_i hv
      rcases List.mem_singleton.mp hu with rfl
      exact hv
    · simp at hu
  · simp at hu

theorem mem_candidates_valid {e : Entry} {u : List Char}
    (hu : u ∈ candidatesOf e) : is_valid (some u) = true := by
  unfold candidatesOf at hu
  simp only [List.mem_append] at hu
  rcases hu with ((((h | h) | h) | h) | h) | h
  · obtain ⟨mc, _, heq⟩ := List.mem_filterMap.mp h
    split at heq
    · rename_i hv
      rw [heq] at hv
      exact hv
    · exact Option.noConfusion heq
  · obtain ⟨mt, _, heq⟩ := List.mem_filterMap.mp h
    split at heq
    · rename_i hv
      rw [heq] at hv
      exact hv
    · exact Option.noConfusion heq
  · obtain ⟨l, _, heq⟩ := List.mem_filterMap.mp h
    split at heq
    · rename_i hrefv
      split at heq
      · rename_i hc
        rcases Option.some.injEq .. ▸ heq with rfl
        rw [Bool.and_eq_true] at hc
        exact hc.1
      · exact Option.noConfusion heq
    · exact Option.noConfusion heq
  · split at h
    · simp at h
    · exact mem_imgCandidate h
  · exact mem_imgCandidate h
  · exact mem_imgCandidate h

theorem chooseCand_sound {l : List (List Char)} {nu : List Char}
    (h : chooseCand l = some nu) :
    ∃ u ∈ l, nu = (normU (some u)).getD [] := by
  induction l with
  | nil => simp [chooseCand] at h
  | cons u rest ih =>
    unfold chooseCand at h
    by_cases hg : is_generic ((normU (some u)).getD []) = true
    · rw [if_pos hg] at h
      obtain ⟨v, hv, hnu⟩ := ih h
      exact ⟨v, List.mem_cons_of_mem _ hv, hnu⟩
    · rw [if_neg hg] at h
      rcases Option.some.injEq .. ▸ h with rfl
      exact ⟨u, List.mem_cons_self _ _, rfl⟩

theorem scrape_og_shape {net : List Char → Option (List Char)}
    {url og : List Char} (h : scrape_og_image net url = some og) :
    beginsWith (("http").data) og = true := by
  unfold scrape_og_image at h
  split at h
  · split at h
    · split at h
      · rename_i hb
        rcases Option.some.injEq .. ▸ h with rfl
        exact hb
      · exact Option.noConfusion h
    · exact Option.noConfusion h
  · exact Option.noConfusion h

theorem scrape_og_shape' {net : List Char → Option (List Char)}
    {url og : List Char} (h : scrape_og_image net url = some og) :
    ¬ og = [] :=
  begins_http_ne_nil (scrape_og_shape h)

theorem placeholder_shape (category : List Char) :
    ¬ placeholderFor category = []
    ∧ beginsWith (("http").data) (lowerS (placeholderFor category)) = true := by
  constructor
  · obtain ⟨rest, hr⟩ : ∃ rest, placeholderFor category = 'h' :: rest := ⟨_, rfl⟩
    rw [hr]
    exact List.cons_ne_nil _ _
  · obtain ⟨rest, hr⟩ : ∃ rest,
        lowerS (placeholderFor category) = 'h' :: 't' :: 't' :: 'p' :: rest := ⟨_, rfl⟩
    unfold beginsWith
    rw [hr, show (("http").data).length = 4 from rfl]
    simp [List.take]

theorem pick_image_shape (net : List Char → Option (List Char)) (e : Entry)
    (category : List Char) :
    ¬ pick_image net e category = []
    ∧ beginsWith (("http").data) (lowerS (pick_image net e category)) = true := by
  cases hcc : chooseCand (candidatesOf e) with
  | some nu =>
    obtain ⟨u, hu, hnu⟩ := chooseCand_sound hcc
    have hv := mem_candidates_valid hu
    obtain ⟨t, hnt, htne, htb⟩ := valid_norm hv
    rw [hnt] at hnu
    simp only [Option.getD_some] at hnu
    have hpick : pick_image net e category = nu := by
      unfold pick_image
      rw [hcc]
    rw [hpick, hnu]
    exact ⟨htne, htb⟩
  | none =>
    cases hog : scrape_og_image net e.link with
    | some og =>
      have hb := scrape_og_shape hog
      have hpick : pick_image net e category = og := by
        unfold pick_image
        rw [hcc, hog]
      rw [hpick]
      exact ⟨begins_http_ne_nil hb, beginsWith_lower (by decide) hb⟩
    | none =>
      cases hcand : candidatesOf e with
      | cons u rest =>
        have hv : is_valid (some u) = true :=
          mem_candidates_valid (by rw [hcand]; exact List.mem_cons_self _ _)
        obtain ⟨t, hnt, htne, htb⟩ := valid_norm hv
        have hpick : pick_image net e category = t := by
          unfold pick_image
          rw [hcc, hog, hcand]
          show (match normU (some u) with | some n => n | none => u) = t
          rw [hnt]
        rw [hpick]
        exact ⟨htne, htb⟩
      | nil =>
        have hpick : pick_image net e category = placeholderFor category := by
          unfold pick_image
          rw [hcc, hog, hcand]
        rw [hpick]
        exact placeholder_shape category

/-- C7: the image picker never returns an empty URL; and for an entry
with no valid image candidates at all — so that the OG-image scrape of
its link (which the source attempts before giving up) also yields
nothing — it returns the deterministic category placeholder
`https://picsum.photos/seed/{seed}-news/800/400` seeded with the
lower-cased, space-to-hyphen category name. -/
theorem C7_pick_image (net : List Char → Option (List Char)) (e : Entry)
    (category : List Char) :
    ¬ pick_image net e category = []
    ∧ (candidatesOf e = [] → scrape_og_image net e.link = none →
        pick_image net e category = placeholderFor category) := by
  refine ⟨(pick_image_shape net e category).1, ?_⟩
  intro hc hog
  unfold pick_image
  rw [hc, hog]
  rfl

/-- An entry with zero media fields and an empty link. -/
def entryNoMedia : Entry :=
  { media_content := [], media_thumbnail := [], links := [], content := [],
    summary := none, description := none, link := [] }

/-- C7 witness: category `"Sports"` with no media yields exactly
`https://picsum.photos/seed/sports-news/800/400`, a non-empty URL. -/
theorem C7_pick_image_witness :
    pick_image (fun _ => none) entryNoMedia (("Sports").data)
        = ("https://picsum.photos/seed/sports-news/800/400").data
    ∧ ¬ pick_image (fun _ => none) entryNoMedia (("Sports").data) = [] := by
  have h := C7_pick_image (fun _ => none) entryNoMedia (("Sports").data)
  refine ⟨?_, h.1⟩
  rw [h.2 rfl rfl]
  decide

/-- An entry whose sole media candidate has an uppercase scheme. -/
def entryUpperMedia : Entry :=
  { media_content := [{ url := some (("HTTP://EXAMPLE.COM/A.PNG").data) }],
    media_thumbnail := [], links := [], content := [],
    summary := none, description := none, link := [] }

/-- C9 counterexample: candidate validation lowercases the URL only for
the test, and the chosen candidate is returned in its original casing,
so the picker can return `HTTP://EXAMPLE.COM/A.PNG` — which does not
begin with `http://` or `https://`. -/
theorem C9_url_shape_counterexample :
    pick_image (fun _ => none) entryUpperMedia (("news").data)
        = ("HTTP://EXAMPLE.COM/A.PNG").data
    ∧ beginsWith (("http://").data)
        (pick_image (fun _ => none) entryUpperMedia (("news").data)) = false
    ∧ beginsWith (("https://").data)
        (pick_image (fun _ => none) entryUpperMedia (("news").data)) = false := by
  refine ⟨by decide, by decide, by decide⟩

/-- C9 (amended): every URL the image picker returns is non-empty and
begins, after lowercasing, with `http`: candidates are validated
case-insensitively against `http://`, `https://` or `//` (the latter
normalized to `https://`), a scraped OG image must start with `http`
verbatim, `data:` URIs are excluded, and the placeholder is `https` — so
the result is never protocol-relative and never a `data:` URL, though it
may carry an uppercase scheme (e.g. `HTTP://…`), and an OG-scraped result
is only guaranteed to start with `http`, not with a full `http://` or
`https://` prefix. -/
theorem C9_url_shape (net : List Char → Option (List Char)) (e : Entry)
    (category : List Char) :
    ¬ pick_image net e category = []
    ∧ beginsWith (("http").data) (lowerS (pick_image net e category)) = true
    ∧ beginsWith (("//").data) (pick_image net e category) = false
    ∧ beginsWith (("data:").data) (lowerS (pick_image net e category)) = false := by
  obtain ⟨hne, hb⟩ := pick_image_shape net e category
  refine ⟨hne, hb, ?_, ?_⟩
  · cases hr : pick_image net e category with
    | nil => exact absurd hr hne
    | cons c1 rest =>
      rw [hr] at hb
      have hc1 : Char.toLower c1 = 'h' := by
        have hb' := of_decide_eq_true hb
        have := congrArg (fun l => l.headD 'x') hb'
        simpa [lowerS, List.take] using this
      cases hbb : beginsWith (("//").data) (c1 :: rest) with
      | false => rfl
      | true =>
        exfalso
        have hbb' := of_decide_eq_true hbb
        have hhead := congrArg (fun l => l.headD 'x') hbb'
        simp [List.take] at hhead
        rw [hhead] at hc1
        exact absurd hc1 (by decide)
  · cases hr : pick_image net e category with
    | nil => exact absurd hr hne
    | cons c1 rest =>
      rw [hr] at hb
      have hc1 : Char.toLower c1 = 'h' := by
        have hb' := of_decide_eq_true hb
        have := congrArg (fun l => l.headD 'x') hb'
        simpa [lowerS, List.take] using this
      cases hbd : beginsWith (("data:").data) (lowerS (c1 :: rest)) with
      | false => rfl
      | true =>
        exfalso
        have hbd' := of_decide_eq_true hbd
        have hhead := congrArg (fun l => l.headD 'x') hbd'
        simp [lowerS, List.take] at hhead
        rw [hhead] at hc1
        exact absurd hc1 (by decide)

/-- C9 witness: the amended claim evaluated at a concrete entry with one
well-formed media candidate. -/
theorem C9_url_shape_witness :
    ¬ pick_image (fun _ => none)
        { media_content := [{ url := some (("https://img.example/a.jpg").data) }],
          media_thumbnail := [], links := [], content := [],
          summary := none, description := none, link := [] } (("news").data) = []
    ∧ beginsWith (("http").data)
        (lowerS (pick_image (fun _ => none)
          { media_content := [{ url := some (("https://img.example/a.jpg").data) }],
            media_thumbnail := [], links := [], content := [],
            summary := none, description := none, link := [] } (("news").data))) = true
    ∧ beginsWith (("//").data)
        (pick_image (fun _ => none)
          { media_content := [{ url := some (("https://img.example/a.jpg").data) }],
            media_thumbnail := [], links := [], content := [],
            summary := none, description := none, link := [] } (("news").data)) = false
    ∧ beginsWith (("data:").data)
        (lowerS (pick_image (fun _ => none)
          { media_content := [{ url := some (("https://img.example/a.jpg").data) }],
            media_thumbnail := [], links := [], content := [],
            summary := none, description := none, link := [] } (("news").data))) = false :=
  C9_url_shape (fun _ => none)
    { media_content := [{ url := some (("https://img.example/a.jpg").data) }],
      media_thumbnail := [], links := [], content := [],
      summary := none, description := none, link := [] } (("news").data)

/-! ### News detail (`news_detail`, src/api/views.py:441-506) -/

/-- The Article row fields `news_detail` inspects: the unique `url`, the
`is_scraped` flag and the scraped `content`. -/
structure ArticleR where
  url : List Nat
  isScraped : Bool
  content : List Char
deriving DecidableEq

/-- Server state seen by `news_detail`: the response cache (key to
serialized payload, `cache.set` pushing the fresh binding in front), the
Article table, and a counter of background scrape threads started. -/
structure DetailState where
  cache : List (List Char × List Char)
  db : List ArticleR
  scrapeJobs : Nat
deriving DecidableEq

/-- `cache.get(key)` over an association list. -/
def lookupAssoc {α : Type} (key : List Char) : List (List Char × α) → Option α
  | [] => none
  | (k, v) :: rest => if k = key then some v else lookupAssoc key rest

/-- `Article.objects.get(url=link)` (raising `DoesNotExist` becomes
`none`). -/
def findArticle (link : List Nat) : List ArticleR → Option ArticleR
  | [] => none
  | a :: rest => if a.url = link then some a else findArticle link rest

def renderScraped (item_id : List Char) : List Char := ("detail-scraped:").data ++ item_id

def renderStub (item_id : List Char) : List Char := ("detail-stub:").data ++ item_id

def renderNew (item_id : List Char) : List Char := ("detail-new:").data ++ item_id

/-- A `news_detail` response: a JSON payload, or the
`{'error': 'Invalid id'}` response with status 400. -/
inductive DetailResp
  | payload (body : List Char)
  | invalidId
deriving DecidableEq

/-- `f"news_detail_{item_id}"` (src/api/views.py:443). -/
def detailKey (item_id : List Char) : List Char := ("news_detail_").data ++ item_id

/-- `news_detail` (src/api/views.py:441-506): cached responses are
returned as-is; a failing `_decode_id` yields the 400 response *before*
any database access, cache write or background scrape; otherwise the
scraped article, or a stub plus a background `scrape_articles` thread
(counted in `scrapeJobs`), creating an empty Article row first when the
link is unknown.  Response bodies are abstracted to tagged serializations
of the inputs, since the claims about this view concern its state
effects. -/
def news_detail (item_id : List Char) (st : DetailState) : DetailResp × DetailState :=
  match lookupAssoc (detailKey item_id) st.cache with
  | some p => (DetailResp.payload p, st)
  | none =>
    match decode_id item_id with
    | none => (DetailResp.invalidId, st)
    | some link =>
      match findArticle link st.db with
      | some a =>
        if a.isScraped && !a.content.isEmpty then
          (DetailResp.payload (renderScraped item_id),
            { st with cache := (detailKey item_id, renderScraped item_id) :: st.cache })
        else
          (DetailResp.payload (renderStub item_id),
            { st with cache := (detailKey item_id, renderStub item_id) :: st.cache,
                      scrapeJobs := st.scrapeJobs + 1 })
      | none =>
        (DetailResp.payload (renderNew item_id),
          { st with db := { url := link, isScraped := false, content := [] } :: st.db,
                    cache := (detailKey item_id, renderNew item_id) :: st.cache,
                    scrapeJobs := st.scrapeJobs + 1 })

/-- C10: for a malformed item id (one `_decode_id` rejects) with no
cached response under its key, `news_detail` returns the 400 error
response and leaves the whole state unchanged: no Article row is
created, no cache entry is written, and no background scrape is
triggered. -/
theorem C10_invalid_id (item_id : List Char) (st : DetailState)
    (hmiss : lookupAssoc (detailKey item_id) st.cache = none)
    (hbad : decode_id item_id = none) :
    news_detail item_id st = (DetailResp.invalidId, st) := by
  unfold news_detail
  rw [hmiss, hbad]

/-- C10 witness: the id `"a"` (whose padded form `a===` the decoder
rejects) on an empty server state. -/
theorem C10_invalid_id_witness :
    news_detail (("a").data) { cache := [], db := [], scrapeJobs := 0 }
      = (DetailResp.invalidId, { cache := [], db := [], scrapeJobs := 0 }) :=
  C10_invalid_id (("a").data) { cache := [], db := [], scrapeJobs := 0 } rfl (by decide)
